import Mathlib

/-!
Shallow embedding of the Xiangqi (Chinese Chess) rules engine and session
state machine of the repository: `src/services/xiangiRules.ts`,
`src/constants.ts` (initial layout), `src/App.tsx` (`handleMove`,
`finishGame`, `handleGameOver`, `canMove`, `startNewGame`) and
`src/components/Board.tsx` (`handleTargetInteraction`).

TypeScript numbers holding board coordinates are modelled as `Int`
(coordinate arithmetic may temporarily leave the board; `isWithinBoard`
decides validity, exactly as in the source).  TypeScript `undefined`
option fields become `Option`.  The display-only `notation` string of a
move record carries no semantic weight in the engine and is omitted from
the embedded record; `timestamp` is kept as an `Int`.
-/

namespace Xiangqi

/-- `PlayerColor` enum of `types.ts`. -/
inductive PlayerColor where
  | red
  | black
deriving DecidableEq, Repr

/-- `PieceType` enum of `types.ts`. -/
inductive PieceType where
  | general
  | advisor
  | elephant
  | horse
  | chariot
  | cannon
  | soldier
deriving DecidableEq, Repr

/-- `Position` of `types.ts`: x is the column (0-8), y the row (0-9). -/
structure Position where
  x : Int
  y : Int
deriving DecidableEq, Repr

/-- `Piece` of `types.ts`. -/
structure Piece where
  id : String
  type : PieceType
  color : PlayerColor
  position : Position
deriving DecidableEq, Repr

/-- `Move` of `types.ts` (`from`/`to` are renamed `fromPos`/`toPos`, `from` and `to` being reserved words; the display-only
`notation` string is omitted, see the file comment). -/
structure Move where
  pieceId : String
  fromPos : Position
  toPos : Position
  capturedPieceId : Option String
  timestamp : Int
deriving DecidableEq, Repr

/-- `GameResult` of `types.ts`: `PlayerColor | 'draw'`. -/
inductive GameResult where
  | side (c : PlayerColor)
  | draw
deriving DecidableEq, Repr

/-- The `status` field of `GameSession`. -/
inductive GameStatus where
  | active
  | finished
deriving DecidableEq, Repr

/-- The `resultReason` field of `GameSession`. -/
inductive ResultReason where
  | capture
  | checkmate
  | stalemate
  | drawAgreed
  | resign
deriving DecidableEq, Repr

/-- `GameSession` of `types.ts` (the optional `players` display record is
omitted; it is never read by the engine). -/
structure GameSession where
  id : String
  startTime : Int
  lastUpdated : Int
  status : GameStatus
  winner : Option GameResult
  resultReason : Option ResultReason
  pieces : List Piece
  turn : PlayerColor
  moves : List Move
  name : String
deriving DecidableEq, Repr

/-- `BOARD_COLS` of `constants.ts`. -/
def BOARD_COLS : Int := 9

/-- `BOARD_ROWS` of `constants.ts`. -/
def BOARD_ROWS : Int := 10

/-- `isWithinBoard` of `xiangiRules.ts`. -/
def isWithinBoard (p : Position) : Bool :=
  decide (0 ≤ p.x ∧ p.x < BOARD_COLS ∧ 0 ≤ p.y ∧ p.y < BOARD_ROWS)

/-- `getPieceAt` of `xiangiRules.ts`: first piece whose position matches. -/
def getPieceAt (pieces : List Piece) (pos : Position) : Option Piece :=
  pieces.find? (fun p => decide (p.position.x = pos.x ∧ p.position.y = pos.y))

/-- `findGeneral` of `xiangiRules.ts`. -/
def findGeneral (pieces : List Piece) (color : PlayerColor) : Option Piece :=
  pieces.find? (fun p => decide (p.type = PieceType.general ∧ p.color = color))

/-- `applyMove` of `xiangiRules.ts`: drop the captured piece (a piece id
never equals an absent `capturedPieceId`, as in the TypeScript `!==`
against `undefined`), then relocate the mover. -/
def applyMove (pieces : List Piece) (move : Move) : List Piece :=
  (pieces.filter (fun p => decide (some p.id ≠ move.capturedPieceId))).map
    (fun p => if p.id = move.pieceId then { p with position := move.toPos } else p)

/-- `getInitialPieces` of `constants.ts`: the 32 pieces in creation order,
with the ids produced by the `p_${idCounter++}_${color}_${type}` scheme. -/
def getInitialPieces : List Piece :=
  [ ⟨"p_0_black_chariot", .chariot, .black, ⟨0, 0⟩⟩,
    ⟨"p_1_black_horse", .horse, .black, ⟨1, 0⟩⟩,
    ⟨"p_2_black_elephant", .elephant, .black, ⟨2, 0⟩⟩,
    ⟨"p_3_black_advisor", .advisor, .black, ⟨3, 0⟩⟩,
    ⟨"p_4_black_general", .general, .black, ⟨4, 0⟩⟩,
    ⟨"p_5_black_advisor", .advisor, .black, ⟨5, 0⟩⟩,
    ⟨"p_6_black_elephant", .elephant, .black, ⟨6, 0⟩⟩,
    ⟨"p_7_black_horse", .horse, .black, ⟨7, 0⟩⟩,
    ⟨"p_8_black_chariot", .chariot, .black, ⟨8, 0⟩⟩,
    ⟨"p_9_black_cannon", .cannon, .black, ⟨1, 2⟩⟩,
    ⟨"p_10_black_cannon", .cannon, .black, ⟨7, 2⟩⟩,
    ⟨"p_11_black_soldier", .soldier, .black, ⟨0, 3⟩⟩,
    ⟨"p_12_black_soldier", .soldier, .black, ⟨2, 3⟩⟩,
    ⟨"p_13_black_soldier", .soldier, .black, ⟨4, 3⟩⟩,
    ⟨"p_14_black_soldier", .soldier, .black, ⟨6, 3⟩⟩,
    ⟨"p_15_black_soldier", .soldier, .black, ⟨8, 3⟩⟩,
    ⟨"p_16_red_chariot", .chariot, .red, ⟨0, 9⟩⟩,
    ⟨"p_17_red_horse", .horse, .red, ⟨1, 9⟩⟩,
    ⟨"p_18_red_elephant", .elephant, .red, ⟨2, 9⟩⟩,
    ⟨"p_19_red_advisor", .advisor, .red, ⟨3, 9⟩⟩,
    ⟨"p_20_red_general", .general, .red, ⟨4, 9⟩⟩,
    ⟨"p_21_red_advisor", .advisor, .red, ⟨5, 9⟩⟩,
    ⟨"p_22_red_elephant", .elephant, .red, ⟨6, 9⟩⟩,
    ⟨"p_23_red_horse", .horse, .red, ⟨7, 9⟩⟩,
    ⟨"p_24_red_chariot", .chariot, .red, ⟨8, 9⟩⟩,
    ⟨"p_25_red_cannon", .cannon, .red, ⟨1, 7⟩⟩,
    ⟨"p_26_red_cannon", .cannon, .red, ⟨7, 7⟩⟩,
    ⟨"p_27_red_soldier", .soldier, .red, ⟨0, 6⟩⟩,
    ⟨"p_28_red_soldier", .soldier, .red, ⟨2, 6⟩⟩,
    ⟨"p_29_red_soldier", .soldier, .red, ⟨4, 6⟩⟩,
    ⟨"p_30_red_soldier", .soldier, .red, ⟨6, 6⟩⟩,
    ⟨"p_31_red_soldier", .soldier, .red, ⟨8, 6⟩⟩ ]

/-- `reconstructBoard` of `xiangiRules.ts`: replay the moves over the
initial layout (the source's `for` loop is a left fold). -/
def reconstructBoard (moves : List Move) : List Piece :=
  moves.foldl applyMove getInitialPieces

/-- `isGeneralFacingGeneral` of `xiangiRules.ts`.  The inline
`pieces.find(...)` calls of the source use the same predicate as
`findGeneral`.  The `for (let y = minY + 1; y < maxY; y++)` scan is the
conjunction over the strictly-between rows. -/
def isGeneralFacingGeneral (pieces : List Piece) : Bool :=
  match findGeneral pieces .red, findGeneral pieces .black with
  | some redGen, some blackGen =>
    if redGen.position.x ≠ blackGen.position.x then false
    else
      let col := redGen.position.x
      let minY := min redGen.position.y blackGen.position.y
      let maxY := max redGen.position.y blackGen.position.y
      (List.range (maxY - minY - 1).toNat).all
        (fun j => (getPieceAt pieces ⟨col, minY + 1 + (j : Int)⟩).isNone)
  | _, _ => false

/-- The `tryAddMove` helper of `getValidMoves`: the pushed destination, if
any (empty square or enemy-occupied square within the board). -/
def tryDest (piece : Piece) (allPieces : List Piece) (tx ty : Int) : Option Position :=
  if !isWithinBoard ⟨tx, ty⟩ then none
  else
    match getPieceAt allPieces ⟨tx, ty⟩ with
    | none => some ⟨tx, ty⟩
    | some target => if target.color ≠ piece.color then some ⟨tx, ty⟩ else none

/-- The four orthogonal direction offsets used by General/Chariot/Cannon. -/
def orthDirs : List (Int × Int) := [(0, 1), (0, -1), (1, 0), (-1, 0)]

/-- The four diagonal direction offsets used by the Advisor. -/
def diagDirs : List (Int × Int) := [(1, 1), (1, -1), (-1, 1), (-1, -1)]

/-- The Elephant's four two-step diagonal offsets. -/
def elephantDirs : List (Int × Int) := [(2, 2), (2, -2), (-2, 2), (-2, -2)]

/-- The Horse's eight L-shaped offsets. -/
def horseDirs : List (Int × Int) :=
  [(1, 2), (1, -2), (-1, 2), (-1, -2), (2, 1), (2, -1), (-2, 1), (-2, -1)]

/-- The `GENERAL` case of `getValidMoves`: one orthogonal step inside the
palace. -/
def generalMoves (piece : Piece) (allPieces : List Piece) : List Position :=
  orthDirs.filterMap (fun d =>
    let tx := piece.position.x + d.1
    let ty := piece.position.y + d.2
    if (3 ≤ tx ∧ tx ≤ 5) ∧
        (if piece.color = .red then 7 ≤ ty ∧ ty ≤ 9 else 0 ≤ ty ∧ ty ≤ 2) then
      tryDest piece allPieces tx ty
    else none)

/-- The `ADVISOR` case of `getValidMoves`: one diagonal step inside the
palace. -/
def advisorMoves (piece : Piece) (allPieces : List Piece) : List Position :=
  diagDirs.filterMap (fun d =>
    let tx := piece.position.x + d.1
    let ty := piece.position.y + d.2
    if (3 ≤ tx ∧ tx ≤ 5) ∧
        (if piece.color = .red then 7 ≤ ty ∧ ty ≤ 9 else 0 ≤ ty ∧ ty ≤ 2) then
      tryDest piece allPieces tx ty
    else none)

/-- The `ELEPHANT` case of `getValidMoves`: two-step diagonal, river
bound, blocked by an occupied eye (the diagonal midpoint). -/
def elephantMoves (piece : Piece) (allPieces : List Piece) : List Position :=
  elephantDirs.filterMap (fun d =>
    let tx := piece.position.x + d.1
    let ty := piece.position.y + d.2
    if piece.color = .red ∧ ty < 5 then none
    else if ¬(piece.color = .red) ∧ ty > 4 then none
    else
      if (getPieceAt allPieces ⟨piece.position.x + d.1 / 2, piece.position.y + d.2 / 2⟩).isNone then
        tryDest piece allPieces tx ty
      else none)

/-- The `HORSE` case of `getValidMoves`: L-shaped step, blocked by an
occupied leg (the orthogonally adjacent square on the long axis). -/
def horseMoves (piece : Piece) (allPieces : List Piece) : List Position :=
  horseDirs.filterMap (fun d =>
    let legX := piece.position.x + (if d.1.natAbs = 2 then d.1.sign else 0)
    let legY := piece.position.y + (if d.2.natAbs = 2 then d.2.sign else 0)
    if (getPieceAt allPieces ⟨legX, legY⟩).isNone then
      tryDest piece allPieces (piece.position.x + d.1) (piece.position.y + d.2)
    else none)

/-- The at most ten candidate squares a sliding piece can visit along one
direction: the source's `while` loop visits `pos + i·d` for `i = 1, 2, …`
and always breaks at the first off-board square, which along a unit
direction arrives after at most ten on-board squares. -/
def raySquares (pos : Position) (d : Int × Int) : List Position :=
  ((List.range 10).map
      (fun j => Position.mk (pos.x + d.1 * ((j : Int) + 1)) (pos.y + d.2 * ((j : Int) + 1)))).takeWhile
    isWithinBoard

/-- The `CHARIOT` loop body of `getValidMoves` over one ray: keep sliding
over empty squares, capture the first enemy square, stop at a friendly
square. -/
def chariotScan (piece : Piece) (allPieces : List Piece) : List Position → List Position
  | [] => []
  | sq :: rest =>
    match getPieceAt allPieces sq with
    | none => sq :: chariotScan piece allPieces rest
    | some target => if target.color ≠ piece.color then [sq] else []

/-- The `CHARIOT` case of `getValidMoves`. -/
def chariotMoves (piece : Piece) (allPieces : List Piece) : List Position :=
  orthDirs.flatMap (fun d => chariotScan piece allPieces (raySquares piece.position d))

/-- The `CANNON` loop body of `getValidMoves` over one ray, with the
`hasMount` flag: before the screen, empty squares are moves and the first
occupied square becomes the mount; after the screen, the first occupied
square is a capture iff it is an enemy, and the scan always stops there. -/
def cannonScan (piece : Piece) (allPieces : List Piece) : Bool → List Position → List Position
  | _, [] => []
  | false, sq :: rest =>
    match getPieceAt allPieces sq with
    | none => sq :: cannonScan piece allPieces false rest
    | some _ => cannonScan piece allPieces true rest
  | true, sq :: rest =>
    match getPieceAt allPieces sq with
    | none => cannonScan piece allPieces true rest
    | some target => if target.color ≠ piece.color then [sq] else []

/-- The `CANNON` case of `getValidMoves`. -/
def cannonMoves (piece : Piece) (allPieces : List Piece) : List Position :=
  orthDirs.flatMap (fun d => cannonScan piece allPieces false (raySquares piece.position d))

/-- The `SOLDIER` case of `getValidMoves`: one step forward, plus one step
sideways after crossing the river. -/
def soldierMoves (piece : Piece) (allPieces : List Piece) : List Position :=
  let forward : Int := if piece.color = .red then -1 else 1
  (tryDest piece allPieces piece.position.x (piece.position.y + forward)).toList ++
    (if (if piece.color = .red then piece.position.y ≤ 4 else 5 ≤ piece.position.y) then
      (tryDest piece allPieces (piece.position.x - 1) piece.position.y).toList ++
        (tryDest piece allPieces (piece.position.x + 1) piece.position.y).toList
    else [])

/-- The `moves` array built by the `switch` of `getValidMoves` before the
flying-general filter. -/
def pseudoMoves (piece : Piece) (allPieces : List Piece) : List Position :=
  match piece.type with
  | .general => generalMoves piece allPieces
  | .advisor => advisorMoves piece allPieces
  | .elephant => elephantMoves piece allPieces
  | .horse => horseMoves piece allPieces
  | .chariot => chariotMoves piece allPieces
  | .cannon => cannonMoves piece allPieces
  | .soldier => soldierMoves piece allPieces

/-- The move simulation inside the final filter of `getValidMoves`:
relocate the mover (matched by id first), remove any piece standing on the
destination square. -/
def simulateMove (allPieces : List Piece) (piece : Piece) (movePos : Position) : List Piece :=
  allPieces.filterMap (fun p =>
    if p.id = piece.id then some { p with position := movePos }
    else if p.position.x = movePos.x ∧ p.position.y = movePos.y then none
    else some p)

/-- `getValidMoves` of `xiangiRules.ts`: the per-type candidates minus
every destination whose simulated position puts the two generals in
face-off. -/
def getValidMoves (piece : Piece) (allPieces : List Piece) : List Position :=
  (pseudoMoves piece allPieces).filter
    (fun movePos => !isGeneralFacingGeneral (simulateMove allPieces piece movePos))

/-- `isSquareThreatened` of `xiangiRules.ts`: some opposing piece either
triggers the flying-general special case (an opposing general on the same
file with nothing strictly between) or reaches the square through
`getValidMoves`. -/
def isSquareThreatened (pieces : List Piece) (target : Position) (defender : PlayerColor) : Bool :=
  let attacker : PlayerColor := match defender with | .red => .black | .black => .red
  (pieces.filter (fun p => decide (p.color = attacker))).any (fun piece =>
    (decide (piece.type = PieceType.general ∧ piece.position.x = target.x) &&
      (let minY := min piece.position.y target.y
       let maxY := max piece.position.y target.y
       (List.range (maxY - minY - 1).toNat).all
         (fun j => (getPieceAt pieces ⟨target.x, minY + 1 + (j : Int)⟩).isNone))) ||
    (getValidMoves piece pieces).any (fun m => decide (m.x = target.x ∧ m.y = target.y)))

/-- `isInCheck` of `xiangiRules.ts`: a missing general counts as a check,
otherwise the flying-general face-off or a threat against the general's
square. -/
def isInCheck (pieces : List Piece) (color : PlayerColor) : Bool :=
  match findGeneral pieces color with
  | none => true
  | some general =>
    isGeneralFacingGeneral pieces || isSquareThreatened pieces general.position color

/-- `hasAnyLegalMove` of `xiangiRules.ts`: some own piece has a generated
destination whose application does not leave the own color in check.  The
source stamps the probe move with `Date.now()`; `applyMove` never reads
the timestamp, so it is modelled as `0`. -/
def hasAnyLegalMove (pieces : List Piece) (color : PlayerColor) : Bool :=
  (pieces.filter (fun p => decide (p.color = color))).any (fun piece =>
    (getValidMoves piece pieces).any (fun moveTarget =>
      let simulatedMove : Move :=
        { pieceId := piece.id, fromPos := piece.position, toPos := moveTarget,
          capturedPieceId := (getPieceAt pieces moveTarget).map (fun t => t.id),
          timestamp := 0 }
      !isInCheck (applyMove pieces simulatedMove) color))

/-- The record returned by `evaluateGameState`. -/
structure GameEvaluation where
  inCheck : Bool
  checkmated : Bool
  stalemated : Bool
deriving DecidableEq, Repr

/-- `evaluateGameState` of `xiangiRules.ts`. -/
def evaluateGameState (pieces : List Piece) (turn : PlayerColor) : GameEvaluation :=
  let inCheck := isInCheck pieces turn
  let hasMoves := hasAnyLegalMove pieces turn
  { inCheck := inCheck, checkmated := inCheck && !hasMoves, stalemated := !inCheck && !hasMoves }

/-- The turn flip `turn === RED ? BLACK : RED` of `App.tsx`. -/
def nextTurnOf (c : PlayerColor) : PlayerColor :=
  match c with
  | .red => .black
  | .black => .red

/-- The session transformation of `finishGame` in `App.tsx` applied to its
base session (`sessionOverride` when given, as in every `handleMove` call):
mark finished, record winner and reason, refresh `lastUpdated`.  The
persistence calls and the UI animation triggers around it are outside the
engine. -/
def finishGameSession (winner : GameResult) (reason : ResultReason)
    (base : GameSession) (now : Int) : GameSession :=
  { base with
    status := .finished
    winner := some winner
    resultReason := some reason
    lastUpdated := now }

/-- The `updatedSession` record built inside `handleMove` of `App.tsx`:
move applied, turn flipped, move appended to the history, timestamp
refreshed, status kept active. -/
def updatedSession (s : GameSession) (m : Move) (now : Int) : GameSession :=
  { s with
    pieces := applyMove s.pieces m
    turn := nextTurnOf s.turn
    moves := s.moves ++ [m]
    lastUpdated := now
    status := .active }

/-- `handleMove` of `App.tsx` on a present session in play view: reject
out-of-turn movers, apply the move, reject it when the mover's own color
is still in check, finish on a missing general (capture), otherwise flip
the turn and evaluate checkmate/stalemate.  The wall-clock `Date.now()`
values are the explicit `now` argument. -/
def handleMove (s : GameSession) (playerSide : Option PlayerColor) (m : Move)
    (now : Int) : GameSession :=
  if (match playerSide with
      | some ps => decide (ps ≠ s.turn)
      | none => false) then s
  else
    let newPieces := applyMove s.pieces m
    let nt := nextTurnOf s.turn
    if isInCheck newPieces s.turn then s
    else
      let updated : GameSession := updatedSession s m now
      let redGeneral := findGeneral newPieces .red
      let blackGeneral := findGeneral newPieces .black
      if redGeneral.isNone || blackGeneral.isNone then
        finishGameSession (if redGeneral.isSome then .side .red else .side .black)
          .capture updated now
      else
        let evaluation := evaluateGameState newPieces nt
        if evaluation.checkmated then
          finishGameSession (.side s.turn) .checkmate updated now
        else if evaluation.stalemated then
          finishGameSession .draw .stalemate updated now
        else updated

/-- `handleGameOver` of `App.tsx`: a no-op on a finished session, otherwise
finish with the given winner (reason `stalemate` for a draw, `capture`
otherwise). -/
def handleGameOver (s : GameSession) (winner : GameResult) (now : Int) : GameSession :=
  if s.status = .finished then s
  else
    finishGameSession winner
      (match winner with | .draw => .stalemate | _ => .capture) s now

/-- `canMove` of `App.tsx`: a session exists, is active, and the local
player's side is the side to move (a `null` side never matches). -/
def canMove (s : GameSession) (playerSide : Option PlayerColor) : Bool :=
  decide (s.status = .active) && decide (playerSide = some s.turn)

/-- The move record built by `Board.handleTargetInteraction`: mover, its
current square, the tapped destination, and the id of any piece standing
there (the board's inline `pieces.find` is `getPieceAt`). -/
def boardMove (piece : Piece) (pieces : List Piece) (targetPos : Position)
    (now : Int) : Move :=
  { pieceId := piece.id, fromPos := piece.position, toPos := targetPos,
    capturedPieceId := (getPieceAt pieces targetPos).map (fun t => t.id),
    timestamp := now }

/-- The complete move-submission path, in program order: the board ignores
interaction unless `canMove`; a piece may only be selected if it is the
side to move's (`handlePieceInteraction`); the tapped destination must be
in the selected piece's `getValidMoves` set (`handleTargetInteraction`);
the move then goes through `App.handleMove`; finally, if the tapped square
held a general, the board's deferred `onGameOver(piece.color)` callback
runs (`App.handleGameOver`). -/
def submitMove (s : GameSession) (playerSide : Option PlayerColor)
    (pieceId : String) (targetPos : Position) (now : Int) : GameSession :=
  if !canMove s playerSide then s
  else
    match s.pieces.find? (fun p => decide (p.id = pieceId)) with
    | none => s
    | some piece =>
      if piece.color ≠ s.turn then s
      else if !((getValidMoves piece s.pieces).any
          (fun m => decide (m.x = targetPos.x ∧ m.y = targetPos.y))) then s
      else
        let targetPiece := getPieceAt s.pieces targetPos
        let afterMove := handleMove s playerSide (boardMove piece s.pieces targetPos now) now
        match targetPiece with
        | some tp =>
          if tp.type = .general then handleGameOver afterMove (.side piece.color) now
          else afterMove
        | none => afterMove

/-- `createNewGame` of `storageService.ts` (persistence aside): an active
session over the initial layout with Red to move and no history. -/
def createNewGame (id : String) (now : Int) (name : String) : GameSession :=
  { id := id, startTime := now, lastUpdated := now, status := .active,
    winner := none, resultReason := none, pieces := getInitialPieces,
    turn := .red, moves := [], name := name }

/-- One attempted submission against a session: the local player side, the
selected piece and tapped square, and the wall-clock stamp. -/
structure MoveRequest where
  playerSide : Option PlayerColor
  pieceId : String
  targetPos : Position
  now : Int

/-- A whole play session: fold every submission attempt through
`submitMove`. -/
def playSession (start : GameSession) (reqs : List MoveRequest) : GameSession :=
  reqs.foldl (fun s r => submitMove s r.playerSide r.pieceId r.targetPos r.now) start

/-- Modelled from the spec, §4.3: `getLegalMoves(piece, position)` — the
pseudo-legal destinations minus any destination whose resulting position
(simulated with the board's captured-piece derivation) leaves the mover's
own color in check.  The source has no such function; `getValidMoves`
stops at the flying-general filter and the self-check filter lives in
`handleMove`/`hasAnyLegalMove`.  This definition names the spec's
legal-move set so claims about it can be stated. -/
def getLegalMoves (piece : Piece) (pieces : List Piece) : List Position :=
  (getValidMoves piece pieces).filter
    (fun d => !isInCheck (applyMove pieces (boardMove piece pieces d 0)) piece.color)

/-! Concrete positions and sessions used to instantiate the theorems. -/

/-- A position with the red chariot pinned on the generals' file: red
general e9, red chariot e5, black general d0, black chariot e0 (files are
x, 0-8; rows are y, 0-9). -/
def pinnedPieces : List Piece :=
  [ ⟨"rG", .general, .red, ⟨4, 9⟩⟩, ⟨"rR", .chariot, .red, ⟨4, 5⟩⟩,
    ⟨"bG", .general, .black, ⟨3, 0⟩⟩, ⟨"bR", .chariot, .black, ⟨4, 0⟩⟩ ]

/-- The pinned red chariot of `pinnedPieces`. -/
def pinnedChariot : Piece := ⟨"rR", .chariot, .red, ⟨4, 5⟩⟩

/-- An active session over `pinnedPieces`, red to move. -/
def pinnedSession : GameSession :=
  { id := "pin", startTime := 0, lastUpdated := 0, status := .active,
    winner := none, resultReason := none, pieces := pinnedPieces,
    turn := .red, moves := [], name := "pin" }

/-- A finished session (used against the terminal-state theorem). -/
def finishedSession : GameSession :=
  { id := "fin", startTime := 0, lastUpdated := 0, status := .finished,
    winner := some (.side .red), resultReason := some .capture,
    pieces := getInitialPieces, turn := .black, moves := [], name := "fin" }

/-- A position where the red cannon can capture the black general over a
screen while red itself stays in check from the black chariot: red general
e9, red cannon e4, black general e2, black soldier (screen) e3, black
chariot a9. -/
def exposedPieces : List Piece :=
  [ ⟨"rG", .general, .red, ⟨4, 9⟩⟩, ⟨"rC", .cannon, .red, ⟨4, 4⟩⟩,
    ⟨"bG", .general, .black, ⟨4, 2⟩⟩, ⟨"bS", .soldier, .black, ⟨4, 3⟩⟩,
    ⟨"bR", .chariot, .black, ⟨0, 9⟩⟩ ]

/-- The red cannon of `exposedPieces`. -/
def exposedCannon : Piece := ⟨"rC", .cannon, .red, ⟨4, 4⟩⟩

/-- An active session over `exposedPieces`, red to move. -/
def exposedSession : GameSession :=
  { id := "exp", startTime := 0, lastUpdated := 0, status := .active,
    winner := none, resultReason := none, pieces := exposedPieces,
    turn := .red, moves := [], name := "exp" }

/-- A position where the red chariot can capture the black general
cleanly: red general e9, red chariot d5, black general d0. -/
def openCapturePieces : List Piece :=
  [ ⟨"rG", .general, .red, ⟨4, 9⟩⟩, ⟨"rR", .chariot, .red, ⟨3, 5⟩⟩,
    ⟨"bG", .general, .black, ⟨3, 0⟩⟩ ]

/-- The red chariot of `openCapturePieces`. -/
def openCaptureChariot : Piece := ⟨"rR", .chariot, .red, ⟨3, 5⟩⟩

/-- An active session over `openCapturePieces`, red to move. -/
def openCaptureSession : GameSession :=
  { id := "cap", startTime := 0, lastUpdated := 0, status := .active,
    winner := none, resultReason := none, pieces := openCapturePieces,
    turn := .red, moves := [], name := "cap" }

/-- A quiet three-piece position: red general e9, black general d0, red
soldier a6; red to move. -/
def quietPieces : List Piece :=
  [ ⟨"rG", .general, .red, ⟨4, 9⟩⟩, ⟨"bG", .general, .black, ⟨3, 0⟩⟩,
    ⟨"rS", .soldier, .red, ⟨0, 6⟩⟩ ]

/-- An active session over `quietPieces`, red to move. -/
def quietSession : GameSession :=
  { id := "q", startTime := 0, lastUpdated := 0, status := .active,
    winner := none, resultReason := none, pieces := quietPieces,
    turn := .red, moves := [], name := "q" }

/-- The red soldier of `quietPieces` stepping from a6 to a5 (no capture). -/
def quietMove : Move :=
  { pieceId := "rS", fromPos := ⟨0, 6⟩, toPos := ⟨0, 5⟩,
    capturedPieceId := none, timestamp := 0 }

/-- Two bare generals facing each other on file e. -/
def faceOffPieces : List Piece :=
  [ ⟨"rG", .general, .red, ⟨4, 9⟩⟩, ⟨"bG", .general, .black, ⟨4, 0⟩⟩ ]

/-- The red general of `faceOffPieces`. -/
def faceOffRedGen : Piece := ⟨"rG", .general, .red, ⟨4, 9⟩⟩

/-- The black general of `faceOffPieces`. -/
def faceOffBlackGen : Piece := ⟨"bG", .general, .black, ⟨4, 0⟩⟩

/-- A cannon study: red cannon e5, black soldier (screen) e3, black
chariot e1, red soldier c5. -/
def cannonStudyPieces : List Piece :=
  [ ⟨"cC", .cannon, .red, ⟨4, 5⟩⟩, ⟨"scr", .soldier, .black, ⟨4, 3⟩⟩,
    ⟨"tgt", .chariot, .black, ⟨4, 1⟩⟩, ⟨"blk", .soldier, .red, ⟨2, 5⟩⟩ ]

/-- The red cannon of `cannonStudyPieces`. -/
def cannonStudyCannon : Piece := ⟨"cC", .cannon, .red, ⟨4, 5⟩⟩

/-- A red general threatened along an open file by a black chariot (no
black general on the board). -/
def threatenedPieces : List Piece :=
  [ ⟨"rG", .general, .red, ⟨4, 9⟩⟩, ⟨"bR", .chariot, .black, ⟨4, 0⟩⟩ ]

/-- A two-piece list exercising `applyMove`. -/
def applyMovePieces : List Piece :=
  [ ⟨"a", .soldier, .red, ⟨0, 0⟩⟩, ⟨"b", .soldier, .black, ⟨0, 1⟩⟩ ]

/-- The move of `"a"` to (0,1) capturing `"b"` over `applyMovePieces`. -/
def applyMoveProbe : Move :=
  { pieceId := "a", fromPos := ⟨0, 0⟩, toPos := ⟨0, 1⟩,
    capturedPieceId := some "b", timestamp := 3 }

/-! Helper lemmas shared by the claim theorems. -/

/-- Two positions with equal coordinates are equal. -/
lemma position_eq_of_coords {a b : Position} (hx : a.x = b.x) (hy : a.y = b.y) :
    a = b := by
  cases a; cases b; simp_all

/-- `handleMove` returns the session unchanged whenever the move leaves
the mover's own color in check (whatever the local player side is). -/
lemma handleMove_self_check (s : GameSession) (ps : Option PlayerColor) (m : Move)
    (now : Int) (h : isInCheck (applyMove s.pieces m) s.turn = true) :
    handleMove s ps m now = s := by
  unfold handleMove
  split
  · rfl
  · simp [h]

/-- When the mover is not left in check, `isInCheck = false` forces the
mover's own general to be present after the move. -/
lemma findGeneral_isSome_of_not_check (pieces : List Piece) (c : PlayerColor)
    (h : isInCheck pieces c = false) : (findGeneral pieces c).isSome = true := by
  cases hfg : findGeneral pieces c with
  | none => rw [isInCheck, hfg] at h; exact absurd h (by simp)
  | some g => rfl

/-- `handleMove` on an accepted move that leaves the opposing general off
the board finishes the session by capture, with the mover as winner and
the move applied and recorded. -/
lemma handleMove_capture (s : GameSession) (ps : Option PlayerColor) (m : Move)
    (now : Int) (hps : ps = none ∨ ps = some s.turn)
    (hchk : isInCheck (applyMove s.pieces m) s.turn = false)
    (hgen : findGeneral (applyMove s.pieces m) (nextTurnOf s.turn) = none) :
    handleMove s ps m now =
      finishGameSession (GameResult.side s.turn) .capture (updatedSession s m now) now := by
  have hmov := findGeneral_isSome_of_not_check (applyMove s.pieces m) s.turn hchk
  unfold handleMove
  rcases hps with rfl | rfl
  · cases hturn : s.turn <;>
      simp_all [nextTurnOf, hchk, hgen, hturn, Option.isNone_iff_eq_none]
  · cases hturn : s.turn <;>
      simp_all [nextTurnOf, hchk, hgen, hturn, Option.isNone_iff_eq_none]

/-- The pieces and history recorded by `handleMove`: either the move is
rejected (session returned unchanged) or the new piece set is the applied
move and the history gains the move. -/
lemma handleMove_pieces_moves (s : GameSession) (ps : Option PlayerColor) (m : Move)
    (now : Int) :
    handleMove s ps m now = s ∨
      ((handleMove s ps m now).pieces = applyMove s.pieces m ∧
        (handleMove s ps m now).moves = s.moves ++ [m]) := by
  unfold handleMove
  split
  · exact Or.inl rfl
  · dsimp only
    split
    · exact Or.inl rfl
    · split
      · exact Or.inr (by simp [finishGameSession, updatedSession])
      · split
        · exact Or.inr (by simp [finishGameSession, updatedSession])
        · split
          · exact Or.inr (by simp [finishGameSession, updatedSession])
          · exact Or.inr (by simp [updatedSession])

/-- `handleGameOver` never touches the piece set, the turn or the history. -/
lemma handleGameOver_frame (s : GameSession) (w : GameResult) (now : Int) :
    (handleGameOver s w now).pieces = s.pieces ∧
      (handleGameOver s w now).turn = s.turn ∧
      (handleGameOver s w now).moves = s.moves := by
  unfold handleGameOver
  split
  · exact ⟨rfl, rfl, rfl⟩
  · simp [finishGameSession]

/-- Replaying one more move is applying it to the replay of the prefix. -/
lemma reconstructBoard_append (moves : List Move) (m : Move) :
    reconstructBoard (moves ++ [m]) = applyMove (reconstructBoard moves) m := by
  simp [reconstructBoard, List.foldl_append]

/-- `applyMove` ignores the timestamp of the move record. -/
lemma applyMove_boardMove_timestamp (pieces : List Piece) (piece : Piece)
    (tgt : Position) (t1 t2 : Int) :
    applyMove pieces (boardMove piece pieces tgt t1) =
      applyMove pieces (boardMove piece pieces tgt t2) := rfl

/-- Without a captured id, `applyMove` is the bare relocation map. -/
lemma applyMove_no_capture (pieces : List Piece) (m : Move)
    (hcap : m.capturedPieceId = none) :
    applyMove pieces m =
      pieces.map (fun p => if p.id = m.pieceId then { p with position := m.toPos } else p) := by
  unfold applyMove
  rw [hcap]
  congr 1
  rw [List.filter_eq_self]
  intro a _
  simp

/-- Relocation preserves whether a general of a given color exists. -/
lemma findGeneral_isSome_map_relocate (pieces : List Piece) (m : Move) (c : PlayerColor) :
    (findGeneral
        (pieces.map (fun p => if p.id = m.pieceId then { p with position := m.toPos } else p))
        c).isSome = (findGeneral pieces c).isSome := by
  induction pieces with
  | nil => rfl
  | cons p l ih =>
    rw [List.map_cons]
    unfold findGeneral
    rw [List.find?_cons, List.find?_cons]
    by_cases h : decide (p.type = PieceType.general ∧ p.color = c) = true
    · have h2 : decide
          ((if p.id = m.pieceId then { p with position := m.toPos } else p).type
              = PieceType.general ∧
            (if p.id = m.pieceId then { p with position := m.toPos } else p).color = c)
          = true := by
        split <;> exact h
      rw [h, h2]
      rfl
    · have h' : decide (p.type = PieceType.general ∧ p.color = c) = false := by
        simpa using h
      have h2 : decide
          ((if p.id = m.pieceId then { p with position := m.toPos } else p).type
              = PieceType.general ∧
            (if p.id = m.pieceId then { p with position := m.toPos } else p).color = c)
          = false := by
        split <;> exact h'
      rw [h', h2]
      exact ih

/-- After the four gates of the board pass, `submitMove` is `handleMove`
followed by the general-capture callback. -/
lemma submitMove_gates (s : GameSession) (pid : String) (tgt : Position) (now : Int)
    (piece : Piece) (hstat : s.status = .active)
    (hfind : s.pieces.find? (fun p => decide (p.id = pid)) = some piece)
    (hpc : piece.color = s.turn)
    (hany : (getValidMoves piece s.pieces).any
        (fun m => decide (m.x = tgt.x ∧ m.y = tgt.y)) = true) :
    submitMove s (some s.turn) pid tgt now =
      (match getPieceAt s.pieces tgt with
       | some tp =>
         if tp.type = .general then
           handleGameOver
             (handleMove s (some s.turn) (boardMove piece s.pieces tgt now) now)
             (.side piece.color) now
         else handleMove s (some s.turn) (boardMove piece s.pieces tgt now) now
       | none => handleMove s (some s.turn) (boardMove piece s.pieces tgt now) now) := by
  unfold submitMove canMove
  rw [hfind]
  simp [hstat, hpc, hany]
  intro hall
  rcases List.any_eq_true.mp hany with ⟨x, hxmem, hxy⟩
  have hxy' := of_decide_eq_true hxy
  exact absurd hxy'.2 (hall x hxmem hxy'.1)

/-- A submission whose tapped square passes none of the board's
destination tests returns the session unchanged. -/
lemma submitMove_eq_self_of_not_any (s : GameSession) (ps : Option PlayerColor)
    (pid : String) (tgt : Position) (now : Int) (piece : Piece)
    (hfind : s.pieces.find? (fun p => decide (p.id = pid)) = some piece)
    (hany : (getValidMoves piece s.pieces).any
        (fun m => decide (m.x = tgt.x ∧ m.y = tgt.y)) = false) :
    submitMove s ps pid tgt now = s := by
  unfold submitMove
  split
  · rfl
  · rw [hfind]
    dsimp only
    split
    · rfl
    · rw [hany]
      rfl

/-- One submission preserves the replay invariant `reconstructBoard
(moves) = pieces`. -/
lemma submitMove_replay_invariant (s : GameSession) (ps : Option PlayerColor)
    (pid : String) (tgt : Position) (now : Int)
    (h : reconstructBoard s.moves = s.pieces) :
    reconstructBoard (submitMove s ps pid tgt now).moves =
      (submitMove s ps pid tgt now).pieces := by
  unfold submitMove
  split
  · exact h
  · split
    · exact h
    · split
      · exact h
      · split
        · exact h
        · dsimp only
          rename Piece => piece
          have hinv : reconstructBoard
              (handleMove s ps (boardMove piece s.pieces tgt now) now).moves =
              (handleMove s ps (boardMove piece s.pieces tgt now) now).pieces := by
            rcases handleMove_pieces_moves s ps (boardMove piece s.pieces tgt now) now with
              hm | ⟨hp, hmv⟩
            · rw [hm]
              exact h
            · rw [hp, hmv, reconstructBoard_append, h]
          have hgo : ∀ w : GameResult, reconstructBoard
              (handleGameOver (handleMove s ps (boardMove piece s.pieces tgt now) now)
                w now).moves =
              (handleGameOver (handleMove s ps (boardMove piece s.pieces tgt now) now)
                w now).pieces := by
            intro w
            rcases handleGameOver_frame
              (handleMove s ps (boardMove piece s.pieces tgt now) now) w now with
              ⟨hp2, _, hm2⟩
            rw [hp2, hm2]
            exact hinv
          split
          · split
            · exact hgo _
            · exact hinv
          · exact hinv

/-- Membership in the cannon scan after the screen has been passed: the
capture square is the first occupied square of the remaining ray and must
hold an enemy piece. -/
lemma cannonScan_mem_mounted (piece : Piece) (pieces : List Piece) :
    ∀ (sqs : List Position) (x : Position),
      x ∈ cannonScan piece pieces true sqs ↔
        ∃ mid post, sqs = mid ++ x :: post ∧
          (∀ z ∈ mid, getPieceAt pieces z = none) ∧
          ∃ t, getPieceAt pieces x = some t ∧ t.color ≠ piece.color := by
  intro sqs
  induction sqs with
  | nil =>
    intro x
    constructor
    · intro hx
      exact absurd hx (List.not_mem_nil x)
    · rintro ⟨mid, post, habs, -, -⟩
      cases mid <;> exact absurd habs (by simp)
  | cons sq rest ih =>
    intro x
    cases hp : getPieceAt pieces sq with
    | none =>
      have hstep : cannonScan piece pieces true (sq :: rest) =
          cannonScan piece pieces true rest := by
        simp [cannonScan, hp]
      rw [hstep, ih x]
      constructor
      · rintro ⟨mid, post, rfl, hmid, ht⟩
        refine ⟨sq :: mid, post, rfl, ?_, ht⟩
        intro z hz
        rcases List.mem_cons.mp hz with rfl | hz
        · exact hp
        · exact hmid z hz
      · rintro ⟨mid, post, heq, hmid, ht⟩
        cases mid with
        | nil =>
          rw [List.nil_append] at heq
          injection heq with h1 h2
          rcases ht with ⟨t, htp, -⟩
          rw [← h1, hp] at htp
          exact absurd htp (by simp)
        | cons m mid2 =>
          rw [List.cons_append] at heq
          injection heq with h1 h2
          exact ⟨mid2, post, h2, fun z hz => hmid z (List.mem_cons_of_mem _ hz), ht⟩
    | some t =>
      have hstep : cannonScan piece pieces true (sq :: rest) =
          if t.color ≠ piece.color then [sq] else [] := by
        simp [cannonScan, hp]
      rw [hstep]
      by_cases hcol : t.color ≠ piece.color
      · rw [if_pos hcol]
        constructor
        · intro hx
          have hx2 : x = sq := by simpa using hx
          subst hx2
          exact ⟨[], rest, rfl, fun z hz => absurd hz (List.not_mem_nil z), ⟨t, hp, hcol⟩⟩
        · rintro ⟨mid, post, heq, hmid, ht⟩
          cases mid with
          | nil =>
            rw [List.nil_append] at heq
            injection heq with h1 h2
            simp [h1]
          | cons m mid2 =>
            rw [List.cons_append] at heq
            injection heq with h1 h2
            have hm := hmid m (List.mem_cons_self m mid2)
            rw [← h1, hp] at hm
            exact absurd hm (by simp)
      · rw [if_neg hcol]
        constructor
        · intro hx
          exact absurd hx (List.not_mem_nil x)
        · rintro ⟨mid, post, heq, hmid, t2, htp2, hcol2⟩
          cases mid with
          | nil =>
            rw [List.nil_append] at heq
            injection heq with h1 h2
            rw [← h1, hp] at htp2
            injection htp2 with h3
            rw [← h3] at hcol2
            exact absurd hcol2 hcol
          | cons m mid2 =>
            rw [List.cons_append] at heq
            injection heq with h1 h2
            have hm := hmid m (List.mem_cons_self m mid2)
            rw [← h1, hp] at hm
            exact absurd hm (by simp)

/-- Membership in the full cannon scan of one ray: either a sliding move
onto an empty square with every earlier ray square empty, or a capture of
the first occupied square past exactly one screen (the first occupied ray
square), holding an enemy piece. -/
lemma cannonScan_mem (piece : Piece) (pieces : List Piece) :
    ∀ (sqs : List Position) (x : Position),
      x ∈ cannonScan piece pieces false sqs ↔
        ((∃ pre post, sqs = pre ++ x :: post ∧
            (∀ z ∈ pre, getPieceAt pieces z = none) ∧ getPieceAt pieces x = none) ∨
          (∃ pre scr mid post, sqs = pre ++ scr :: (mid ++ x :: post) ∧
            (∀ z ∈ pre, getPieceAt pieces z = none) ∧
            (∃ ts, getPieceAt pieces scr = some ts) ∧
            (∀ z ∈ mid, getPieceAt pieces z = none) ∧
            ∃ t, getPieceAt pieces x = some t ∧ t.color ≠ piece.color)) := by
  intro sqs
  induction sqs with
  | nil =>
    intro x
    constructor
    · intro hx
      exact absurd hx (List.not_mem_nil x)
    · rintro (⟨pre, post, habs, -, -⟩ | ⟨pre, scr, mid, post, habs, -, -, -, -⟩) <;>
        cases pre <;> exact absurd habs (by simp)
  | cons sq rest ih =>
    intro x
    cases hp : getPieceAt pieces sq with
    | none =>
      have hstep : cannonScan piece pieces false (sq :: rest) =
          sq :: cannonScan piece pieces false rest := by
        simp [cannonScan, hp]
      rw [hstep, List.mem_cons, ih x]
      constructor
      · rintro (rfl | (⟨pre, post, rfl, hpre, hx⟩ |
          ⟨pre, scr, mid, post, rfl, hpre, hscr, hmid, ht⟩))
        · exact Or.inl ⟨[], rest, rfl, fun z hz => absurd hz (List.not_mem_nil z), hp⟩
        · refine Or.inl ⟨sq :: pre, post, rfl, ?_, hx⟩
          intro z hz
          rcases List.mem_cons.mp hz with rfl | hz
          · exact hp
          · exact hpre z hz
        · refine Or.inr ⟨sq :: pre, scr, mid, post, rfl, ?_, hscr, hmid, ht⟩
          intro z hz
          rcases List.mem_cons.mp hz with rfl | hz
          · exact hp
          · exact hpre z hz
      · rintro (⟨pre, post, heq, hpre, hx⟩ |
          ⟨pre, scr, mid, post, heq, hpre, hscr, hmid, ht⟩)
        · cases pre with
          | nil =>
            rw [List.nil_append] at heq
            injection heq with h1 h2
            exact Or.inl h1.symm
          | cons p pre2 =>
            rw [List.cons_append] at heq
            injection heq with h1 h2
            exact Or.inr (Or.inl ⟨pre2, post, h2,
              fun z hz => hpre z (List.mem_cons_of_mem _ hz), hx⟩)
        · cases pre with
          | nil =>
            rw [List.nil_append] at heq
            injection heq with h1 h2
            rcases hscr with ⟨ts, hts⟩
            rw [← h1, hp] at hts
            exact absurd hts (by simp)
          | cons p pre2 =>
            rw [List.cons_append] at heq
            injection heq with h1 h2
            exact Or.inr (Or.inr ⟨pre2, scr, mid, post, h2,
              fun z hz => hpre z (List.mem_cons_of_mem _ hz), hscr, hmid, ht⟩)
    | some t =>
      have hstep : cannonScan piece pieces false (sq :: rest) =
          cannonScan piece pieces true rest := by
        simp [cannonScan, hp]
      rw [hstep, cannonScan_mem_mounted piece pieces rest x]
      constructor
      · rintro ⟨mid, post, rfl, hmid, ht⟩
        exact Or.inr ⟨[], sq, mid, post, rfl,
          fun z hz => absurd hz (List.not_mem_nil z), ⟨t, hp⟩, hmid, ht⟩
      · rintro (⟨pre, post, heq, hpre, hx⟩ |
          ⟨pre, scr, mid, post, heq, hpre, hscr, hmid, ht⟩)
        · cases pre with
          | nil =>
            rw [List.nil_append] at heq
            injection heq with h1 h2
            rw [← h1, hp] at hx
            exact absurd hx (by simp)
          | cons p pre2 =>
            rw [List.cons_append] at heq
            injection heq with h1 h2
            have hm := hpre p (List.mem_cons_self p pre2)
            rw [← h1, hp] at hm
            exact absurd hm (by simp)
        · cases pre with
          | nil =>
            rw [List.nil_append] at heq
            injection heq with h1 h2
            exact ⟨mid, post, h2, hmid, ht⟩
          | cons p pre2 =>
            rw [List.cons_append] at heq
            injection heq with h1 h2
            have hm := hpre p (List.mem_cons_self p pre2)
            rw [← h1, hp] at hm
            exact absurd hm (by simp)

/-! The claim theorems. -/

/-- C10: `applyMove` is a pure state transformer: a piece is in the output
exactly when it descends from an input piece that does not carry the
captured id, relocated when it is the mover and untouched otherwise; no
surviving piece carries the captured id; no legality checking is involved
(the characterization holds for every move record, validated or not). -/
theorem applyMove_pure_characterization (pieces : List Piece) (m : Move) :
    (∀ q : Piece, q ∈ applyMove pieces m ↔
      ∃ p, p ∈ pieces ∧ some p.id ≠ m.capturedPieceId ∧
        q = (if p.id = m.pieceId then { p with position := m.toPos } else p)) ∧
    (∀ q ∈ applyMove pieces m, some q.id ≠ m.capturedPieceId) := by
  have hmem : ∀ q : Piece, q ∈ applyMove pieces m ↔
      ∃ p, p ∈ pieces ∧ some p.id ≠ m.capturedPieceId ∧
        q = (if p.id = m.pieceId then { p with position := m.toPos } else p) := by
    intro q
    constructor
    · intro hq
      rcases List.mem_map.mp hq with ⟨p, hp, hmap⟩
      rcases List.mem_filter.mp hp with ⟨hpin, hpred⟩
      exact ⟨p, hpin, by simpa using hpred, hmap.symm⟩
    · rintro ⟨p, hpin, hpred, rfl⟩
      exact List.mem_map.mpr ⟨p, List.mem_filter.mpr ⟨hpin, by simpa using hpred⟩, rfl⟩
  refine ⟨hmem, ?_⟩
  intro q hq
  rcases (hmem q).mp hq with ⟨p, _, hpred, rfl⟩
  split
  · simpa using hpred
  · simpa using hpred

/-- C10 witness: the characterization at a concrete capture move. -/
theorem applyMove_pure_characterization_witness :
    ((⟨"a", .soldier, .red, ⟨0, 1⟩⟩ : Piece) ∈ applyMove applyMovePieces applyMoveProbe ↔
      ∃ p, p ∈ applyMovePieces ∧ some p.id ≠ applyMoveProbe.capturedPieceId ∧
        (⟨"a", .soldier, .red, ⟨0, 1⟩⟩ : Piece) =
          (if p.id = applyMoveProbe.pieceId then
            { p with position := applyMoveProbe.toPos } else p)) :=
  (applyMove_pure_characterization applyMovePieces applyMoveProbe).1
    ⟨"a", .soldier, .red, ⟨0, 1⟩⟩

/-- C9: `isInCheck` holds exactly when the color has no general, or the
two generals face off on an open file, or the general's square is
threatened by the opposing side. -/
theorem isInCheck_characterization (pieces : List Piece) (c : PlayerColor) :
    isInCheck pieces c = true ↔
      (findGeneral pieces c = none ∨ isGeneralFacingGeneral pieces = true ∨
        ∃ g, findGeneral pieces c = some g ∧
          isSquareThreatened pieces g.position c = true) := by
  cases h : findGeneral pieces c with
  | none => simp [isInCheck, h]
  | some g => simp [isInCheck, h, Bool.or_eq_true]

/-- C9 witness: the characterization at a concrete position where the red
general is threatened along an open file. -/
theorem isInCheck_characterization_witness :
    isInCheck threatenedPieces .red = true ↔
      (findGeneral threatenedPieces .red = none ∨
        isGeneralFacingGeneral threatenedPieces = true ∨
        ∃ g, findGeneral threatenedPieces .red = some g ∧
          isSquareThreatened threatenedPieces g.position .red = true) :=
  isInCheck_characterization threatenedPieces .red

/-- C3: once a session is finished, any further submission leaves it
completely unchanged (the board ignores interaction unless the session is
active). -/
theorem finished_is_terminal (s : GameSession) (ps : Option PlayerColor)
    (pid : String) (tgt : Position) (now : Int)
    (h : s.status = GameStatus.finished) :
    submitMove s ps pid tgt now = s := by
  unfold submitMove canMove
  simp [h]

/-- C3 witness: a submission against a concrete finished session. -/
theorem finished_is_terminal_witness :
    submitMove finishedSession (some .black) "p_4_black_general" ⟨4, 1⟩ 9 =
      finishedSession :=
  finished_is_terminal finishedSession (some .black) "p_4_black_general" ⟨4, 1⟩ 9 rfl

/-- C2 counterexample: the generated destination d5 of the pinned red
chariot leaves red in check in the simulated position, so `getValidMoves`
does not subtract self-check-inducing destinations. -/
theorem getValidMoves_self_check_counterexample :
    (⟨3, 5⟩ : Position) ∈ getValidMoves pinnedChariot pinnedPieces ∧
      isInCheck (simulateMove pinnedPieces pinnedChariot ⟨3, 5⟩) .red = true := by
  constructor
  · decide
  · decide

/-- C2 amended: `getValidMoves` subtracts only the destinations whose
simulated position puts the generals in face-off; a destination that
leaves the mover in check in any other way can be returned, and such a
move is rejected with no state change by `handleMove` at submission. -/
theorem getValidMoves_face_off_filter_only :
    (∀ (piece : Piece) (pieces : List Piece) (d : Position),
        d ∈ getValidMoves piece pieces →
        isGeneralFacingGeneral (simulateMove pieces piece d) = false) ∧
    (∀ (s : GameSession) (ps : Option PlayerColor) (m : Move) (now : Int),
        isInCheck (applyMove s.pieces m) s.turn = true →
        handleMove s ps m now = s) := by
  constructor
  · intro piece pieces d hd
    have h := List.of_mem_filter hd
    simpa using h
  · intro s ps m now h
    exact handleMove_self_check s ps m now h

/-- C2 amended witness: the face-off filter and the submission-time
rejection at the pinned-chariot position. -/
theorem getValidMoves_face_off_filter_only_witness :
    isGeneralFacingGeneral (simulateMove pinnedPieces pinnedChariot ⟨3, 5⟩) = false ∧
      handleMove pinnedSession (some .red)
        (boardMove pinnedChariot pinnedPieces ⟨3, 5⟩ 5) 5 = pinnedSession :=
  ⟨getValidMoves_face_off_filter_only.1 pinnedChariot pinnedPieces ⟨3, 5⟩ (by decide),
   getValidMoves_face_off_filter_only.2 pinnedSession (some .red)
     (boardMove pinnedChariot pinnedPieces ⟨3, 5⟩ 5) 5 (by decide)⟩

/-- C7: a position with both generals on one file and nothing strictly
between them is reported as check for either side to move, and no
destination returned by `getValidMoves` produces such a face-off in its
simulated position. -/
theorem flying_general_rule :
    (∀ (pieces : List Piece) (c : PlayerColor) (rg bg : Piece),
        findGeneral pieces .red = some rg → findGeneral pieces .black = some bg →
        rg.position.x = bg.position.x →
        (∀ y : Int, min rg.position.y bg.position.y < y →
          y < max rg.position.y bg.position.y →
          getPieceAt pieces ⟨rg.position.x, y⟩ = none) →
        isInCheck pieces c = true) ∧
    (∀ (piece : Piece) (pieces : List Piece) (d : Position),
        d ∈ getValidMoves piece pieces →
        isGeneralFacingGeneral (simulateMove pieces piece d) = false) := by
  constructor
  · intro pieces c rg bg hr hb hx hclear
    have hface : isGeneralFacingGeneral pieces = true := by
      unfold isGeneralFacingGeneral
      rw [hr, hb]
      dsimp only
      rw [if_neg (by simp [hx])]
      rw [List.all_eq_true]
      intro j hj
      rw [List.mem_range] at hj
      have hy := hclear (min rg.position.y bg.position.y + 1 + (j : Int))
        (by omega) (by omega)
      simp [hy]
    cases c with
    | red =>
      unfold isInCheck
      rw [hr, hface]
      simp
    | black =>
      unfold isInCheck
      rw [hb, hface]
      simp
  · intro piece pieces d hd
    have h := List.of_mem_filter hd
    simpa using h

/-- C7 witness: two bare generals facing off on file e are in check, and
the red general's sideways step d9 (which keeps the files distinct) is a
returned destination whose simulated position has no face-off. -/
theorem flying_general_rule_witness :
    isInCheck faceOffPieces .red = true ∧
      isGeneralFacingGeneral (simulateMove faceOffPieces faceOffRedGen ⟨3, 9⟩) = false :=
  ⟨flying_general_rule.1 faceOffPieces .red faceOffRedGen faceOffBlackGen
      (by decide) (by decide) (by decide)
      (by
        intro y h1 h2
        simp only [faceOffRedGen, faceOffBlackGen] at h1 h2 ⊢
        norm_num at h1 h2
        have h9 : decide ((9 : Int) = y) = false := by
          simp
          omega
        have h0 : decide ((0 : Int) = y) = false := by
          simp
          omega
        simp [getPieceAt, faceOffPieces, List.find?, h9, h0]),
   flying_general_rule.2 faceOffRedGen faceOffPieces ⟨3, 9⟩ (by decide)⟩

/-- C5: submitting a move onto the square of the opposing general, when the
resulting piece set is missing that general, yields a finished session with
reason capture and the mover as winner (the checkmate/stalemate evaluator
is bypassed: the capture path runs before `evaluateGameState`, and even a
self-check rejection is followed by the board's general-capture callback,
which also finishes by capture). -/
theorem capture_terminates_session (s : GameSession) (pid : String)
    (tgt : Position) (now : Int) (piece g : Piece)
    (hstat : s.status = GameStatus.active)
    (hfind : s.pieces.find? (fun p => decide (p.id = pid)) = some piece)
    (hpc : piece.color = s.turn)
    (hany : (getValidMoves piece s.pieces).any
        (fun m => decide (m.x = tgt.x ∧ m.y = tgt.y)) = true)
    (hg : getPieceAt s.pieces tgt = some g)
    (hgt : g.type = PieceType.general)
    (hgen : findGeneral (applyMove s.pieces (boardMove piece s.pieces tgt now))
        (nextTurnOf s.turn) = none) :
    (submitMove s (some s.turn) pid tgt now).status = GameStatus.finished ∧
      (submitMove s (some s.turn) pid tgt now).resultReason = some ResultReason.capture ∧
      (submitMove s (some s.turn) pid tgt now).winner = some (GameResult.side s.turn) := by
  rw [submitMove_gates s pid tgt now piece hstat hfind hpc hany, hg]
  dsimp only
  rw [if_pos hgt]
  by_cases hchk : isInCheck (applyMove s.pieces (boardMove piece s.pieces tgt now)) s.turn = true
  · rw [handleMove_self_check s _ _ now hchk]
    unfold handleGameOver
    rw [if_neg (by rw [hstat]; exact fun hh => GameStatus.noConfusion hh)]
    simp [finishGameSession, hpc]
  · have hchk' : isInCheck (applyMove s.pieces (boardMove piece s.pieces tgt now)) s.turn = false := by
      simpa using hchk
    rw [handleMove_capture s _ _ now (Or.inr rfl) hchk' hgen]
    unfold handleGameOver
    rw [if_pos (by simp [finishGameSession])]
    simp [finishGameSession]

/-- C5 witness: the red chariot takes the black general along the open d
file; the session finishes by capture with red as winner. -/
theorem capture_terminates_session_witness :
    (submitMove openCaptureSession (some .red) "rR" ⟨3, 0⟩ 9).status = GameStatus.finished ∧
      (submitMove openCaptureSession (some .red) "rR" ⟨3, 0⟩ 9).resultReason =
        some ResultReason.capture ∧
      (submitMove openCaptureSession (some .red) "rR" ⟨3, 0⟩ 9).winner =
        some (GameResult.side .red) :=
  capture_terminates_session openCaptureSession "rR" ⟨3, 0⟩ 9 openCaptureChariot
    ⟨"bG", .general, .black, ⟨3, 0⟩⟩ rfl (by decide) rfl (by decide) (by decide) rfl
    (by decide)

/-- C6: on an accepted non-capture move the turn flips and
`evaluateGameState` drives the outcome: `checkmated` is exactly
in-check-and-no-legal-move for the new side, `stalemated` is exactly
not-in-check-and-no-legal-move; checkmate finishes the game for the side
that just moved, stalemate finishes it as a draw, and otherwise the session
stays active with the move appended and pieces, turn and timestamp
updated. -/
theorem accepted_move_evaluation (s : GameSession) (ps : Option PlayerColor)
    (m : Move) (now : Int)
    (hps : ps = none ∨ ps = some s.turn)
    (hcap : m.capturedPieceId = none)
    (hrg : (findGeneral s.pieces .red).isSome = true)
    (hbg : (findGeneral s.pieces .black).isSome = true)
    (hchk : isInCheck (applyMove s.pieces m) s.turn = false) :
    ((evaluateGameState (applyMove s.pieces m) (nextTurnOf s.turn)).checkmated =
      (isInCheck (applyMove s.pieces m) (nextTurnOf s.turn) &&
        !hasAnyLegalMove (applyMove s.pieces m) (nextTurnOf s.turn))) ∧
    ((evaluateGameState (applyMove s.pieces m) (nextTurnOf s.turn)).stalemated =
      (!isInCheck (applyMove s.pieces m) (nextTurnOf s.turn) &&
        !hasAnyLegalMove (applyMove s.pieces m) (nextTurnOf s.turn))) ∧
    handleMove s ps m now =
      (if (evaluateGameState (applyMove s.pieces m) (nextTurnOf s.turn)).checkmated then
        finishGameSession (GameResult.side s.turn) .checkmate (updatedSession s m now) now
      else if (evaluateGameState (applyMove s.pieces m) (nextTurnOf s.turn)).stalemated then
        finishGameSession GameResult.draw .stalemate (updatedSession s m now) now
      else updatedSession s m now) := by
  refine ⟨rfl, rfl, ?_⟩
  have hred : (findGeneral (applyMove s.pieces m) PlayerColor.red).isSome = true := by
    rw [applyMove_no_capture s.pieces m hcap, findGeneral_isSome_map_relocate]
    exact hrg
  have hblack : (findGeneral (applyMove s.pieces m) PlayerColor.black).isSome = true := by
    rw [applyMove_no_capture s.pieces m hcap, findGeneral_isSome_map_relocate]
    exact hbg
  have hredne := Option.isSome_iff_ne_none.mp hred
  have hblackne := Option.isSome_iff_ne_none.mp hblack
  unfold handleMove
  rcases hps with rfl | rfl <;>
  · rw [if_neg (by simp)]
    dsimp only
    rw [if_neg (by simp [hchk])]
    rw [if_neg (by
      simp only [Bool.or_eq_true, Option.isNone_iff_eq_none]
      rintro (h | h)
      · exact hredne h
      · exact hblackne h)]

/-- C6 witness: red's quiet soldier step a6-a5 keeps the game active with
the move appended and the turn passed to black. -/
theorem accepted_move_evaluation_witness :
    ((evaluateGameState (applyMove quietSession.pieces quietMove)
        (nextTurnOf quietSession.turn)).checkmated =
      (isInCheck (applyMove quietSession.pieces quietMove) (nextTurnOf quietSession.turn) &&
        !hasAnyLegalMove (applyMove quietSession.pieces quietMove)
          (nextTurnOf quietSession.turn))) ∧
    ((evaluateGameState (applyMove quietSession.pieces quietMove)
        (nextTurnOf quietSession.turn)).stalemated =
      (!isInCheck (applyMove quietSession.pieces quietMove) (nextTurnOf quietSession.turn) &&
        !hasAnyLegalMove (applyMove quietSession.pieces quietMove)
          (nextTurnOf quietSession.turn))) ∧
    handleMove quietSession (some .red) quietMove 3 =
      (if (evaluateGameState (applyMove quietSession.pieces quietMove)
          (nextTurnOf quietSession.turn)).checkmated then
        finishGameSession (GameResult.side quietSession.turn) .checkmate
          (updatedSession quietSession quietMove 3) 3
      else if (evaluateGameState (applyMove quietSession.pieces quietMove)
          (nextTurnOf quietSession.turn)).stalemated then
        finishGameSession GameResult.draw .stalemate
          (updatedSession quietSession quietMove 3) 3
      else updatedSession quietSession quietMove 3) :=
  accepted_move_evaluation quietSession (some .red) quietMove 3 (Or.inr rfl) rfl
    (by decide) (by decide) (by decide)

/-- C4 counterexample: capturing the black general with the red cannon
while red stays in check from the black chariot uses a destination outside
the legal-move set (pseudo-legal minus self-check-inducing), yet the
session does not stay unchanged: the board's general-capture callback
finishes it. -/
theorem illegal_destination_counterexample :
    (⟨4, 2⟩ : Position) ∉ getLegalMoves exposedCannon exposedSession.pieces ∧
      submitMove exposedSession (some .red) "rC" ⟨4, 2⟩ 7 ≠ exposedSession ∧
      (submitMove exposedSession (some .red) "rC" ⟨4, 2⟩ 7).status = GameStatus.finished ∧
      exposedSession.status = GameStatus.active := by
  refine ⟨by decide, by decide, by decide, rfl⟩

/-- C4 amended: a submission whose destination is outside the mover's
legal-move set leaves pieces, turn and history unchanged, and leaves the
whole session unchanged except in one corner: when the destination passes
the board's pseudo-legal test, is self-check-inducing, and holds the
opposing general, the rejected move still triggers the board's
general-capture callback, which marks the session finished with the mover
as winner and reason capture. -/
theorem illegal_destination_rejection (s : GameSession) (ps : Option PlayerColor)
    (pid : String) (tgt : Position) (now : Int) (piece : Piece)
    (hstat : s.status = GameStatus.active)
    (hfind : s.pieces.find? (fun p => decide (p.id = pid)) = some piece)
    (hnl : tgt ∉ getLegalMoves piece s.pieces) :
    ((submitMove s ps pid tgt now).pieces = s.pieces ∧
      (submitMove s ps pid tgt now).turn = s.turn ∧
      (submitMove s ps pid tgt now).moves = s.moves) ∧
    (submitMove s ps pid tgt now = s ∨
      ∃ tp, getPieceAt s.pieces tgt = some tp ∧ tp.type = PieceType.general ∧
        submitMove s ps pid tgt now =
          finishGameSession (GameResult.side s.turn) .capture s now) := by
  by_cases hps : ps = some s.turn
  case neg =>
    have hres : submitMove s ps pid tgt now = s := by
      unfold submitMove canMove
      rw [if_pos (by simp [hps])]
    rw [hres]
    exact ⟨⟨rfl, rfl, rfl⟩, Or.inl rfl⟩
  case pos =>
  subst hps
  by_cases hpc : piece.color = s.turn
  case neg =>
    have hres : submitMove s (some s.turn) pid tgt now = s := by
      unfold submitMove canMove
      rw [hfind]
      rw [if_neg (by simp [hstat])]
      dsimp only
      rw [if_pos hpc]
    rw [hres]
    exact ⟨⟨rfl, rfl, rfl⟩, Or.inl rfl⟩
  case pos =>
  by_cases hany : (getValidMoves piece s.pieces).any
      (fun m => decide (m.x = tgt.x ∧ m.y = tgt.y)) = true
  case neg =>
    have hany' : (getValidMoves piece s.pieces).any
        (fun m => decide (m.x = tgt.x ∧ m.y = tgt.y)) = false := by
      simpa using hany
    rw [submitMove_eq_self_of_not_any s _ pid tgt now piece hfind hany']
    exact ⟨⟨rfl, rfl, rfl⟩, Or.inl rfl⟩
  case pos =>
  have htgt : tgt ∈ getValidMoves piece s.pieces := by
    rcases List.any_eq_true.mp hany with ⟨x, hx, hxy⟩
    have hxy' := of_decide_eq_true hxy
    rwa [position_eq_of_coords hxy'.1 hxy'.2] at hx
  have hchk0 : isInCheck (applyMove s.pieces (boardMove piece s.pieces tgt 0))
      piece.color = true := by
    by_contra hc
    have hc' : isInCheck (applyMove s.pieces (boardMove piece s.pieces tgt 0))
        piece.color = false := by simpa using hc
    exact hnl (List.mem_filter.mpr ⟨htgt, by simp [hc']⟩)
  have hchk : isInCheck (applyMove s.pieces (boardMove piece s.pieces tgt now))
      s.turn = true := by
    rw [applyMove_boardMove_timestamp s.pieces piece tgt now 0, ← hpc]
    exact hchk0
  rw [submitMove_gates s pid tgt now piece hstat hfind hpc hany]
  rw [handleMove_self_check s _ _ now hchk]
  cases hgp : getPieceAt s.pieces tgt with
  | none => exact ⟨⟨rfl, rfl, rfl⟩, Or.inl rfl⟩
  | some tp =>
    dsimp only
    by_cases hgt : tp.type = PieceType.general
    case pos =>
      rw [if_pos hgt]
      unfold handleGameOver
      rw [if_neg (by rw [hstat]; exact fun hh => GameStatus.noConfusion hh)]
      refine ⟨⟨rfl, rfl, rfl⟩, Or.inr ⟨tp, rfl, hgt, ?_⟩⟩
      rw [hpc]
    case neg =>
      rw [if_neg hgt]
      exact ⟨⟨rfl, rfl, rfl⟩, Or.inl rfl⟩

/-- C4 amended witness: the amended statement at the exposed-cannon
position (the general-capture corner is the branch actually taken). -/
theorem illegal_destination_rejection_witness :
    ((submitMove exposedSession (some .red) "rC" ⟨4, 2⟩ 7).pieces =
        exposedSession.pieces ∧
      (submitMove exposedSession (some .red) "rC" ⟨4, 2⟩ 7).turn =
        exposedSession.turn ∧
      (submitMove exposedSession (some .red) "rC" ⟨4, 2⟩ 7).moves =
        exposedSession.moves) ∧
    (submitMove exposedSession (some .red) "rC" ⟨4, 2⟩ 7 = exposedSession ∨
      ∃ tp, getPieceAt exposedSession.pieces ⟨4, 2⟩ = some tp ∧
        tp.type = PieceType.general ∧
        submitMove exposedSession (some .red) "rC" ⟨4, 2⟩ 7 =
          finishGameSession (GameResult.side exposedSession.turn) .capture
            exposedSession 7) :=
  illegal_destination_rejection exposedSession (some .red) "rC" ⟨4, 2⟩ 7
    exposedCannon rfl (by decide) (by decide)

/-- C1: starting from a new game, after any sequence of submissions (each
either accepted or rejected) the session's piece set is exactly the replay
of its recorded move history from the initial layout. -/
theorem reconstruction_equivalence (gid nm : String) (t : Int)
    (reqs : List MoveRequest) :
    reconstructBoard (playSession (createNewGame gid t nm) reqs).moves =
      (playSession (createNewGame gid t nm) reqs).pieces := by
  suffices hstep : ∀ (reqs : List MoveRequest) (s : GameSession),
      reconstructBoard s.moves = s.pieces →
      reconstructBoard (playSession s reqs).moves = (playSession s reqs).pieces by
    exact hstep reqs _ rfl
  intro reqs
  induction reqs with
  | nil => exact fun s h => h
  | cons r rest ih =>
    intro s h
    simpa [playSession, List.foldl_cons] using
      ih (submitMove s r.playerSide r.pieceId r.targetPos r.now)
        (submitMove_replay_invariant s r.playerSide r.pieceId r.targetPos r.now h)

/-- C8: a square is a generated cannon candidate exactly when, along one of
the four orthogonal rays from the cannon, either it is an empty square with
every earlier ray square empty (a slide strictly before the first
intervening piece), or it is an enemy-occupied square that is the first
occupied square beyond exactly one intervening piece — the screen, itself
the first occupied ray square.  In particular an occupied square with zero
or two-or-more intervening pieces is never generated. -/
theorem cannon_screen_capture_rule (piece : Piece) (pieces : List Piece)
    (hc : piece.type = PieceType.cannon) (x : Position) :
    x ∈ pseudoMoves piece pieces ↔
      ∃ d, d ∈ orthDirs ∧
        ((∃ pre post, raySquares piece.position d = pre ++ x :: post ∧
            (∀ z ∈ pre, getPieceAt pieces z = none) ∧ getPieceAt pieces x = none) ∨
          (∃ pre scr mid post,
            raySquares piece.position d = pre ++ scr :: (mid ++ x :: post) ∧
            (∀ z ∈ pre, getPieceAt pieces z = none) ∧
            (∃ ts, getPieceAt pieces scr = some ts) ∧
            (∀ z ∈ mid, getPieceAt pieces z = none) ∧
            ∃ t, getPieceAt pieces x = some t ∧ t.color ≠ piece.color)) := by
  unfold pseudoMoves
  rw [hc]
  unfold cannonMoves
  simp only [List.mem_flatMap]
  exact exists_congr fun d => and_congr_right fun _ =>
    cannonScan_mem piece pieces (raySquares piece.position d) x

/-- C8 witness: the characterization at the cannon study position for the
screen capture square e1. -/
theorem cannon_screen_capture_rule_witness :
    (⟨4, 1⟩ : Position) ∈ pseudoMoves cannonStudyCannon cannonStudyPieces ↔
      ∃ d, d ∈ orthDirs ∧
        ((∃ pre post, raySquares cannonStudyCannon.position d = pre ++ ⟨4, 1⟩ :: post ∧
            (∀ z ∈ pre, getPieceAt cannonStudyPieces z = none) ∧
            getPieceAt cannonStudyPieces ⟨4, 1⟩ = none) ∨
          (∃ pre scr mid post,
            raySquares cannonStudyCannon.position d = pre ++ scr :: (mid ++ ⟨4, 1⟩ :: post) ∧
            (∀ z ∈ pre, getPieceAt cannonStudyPieces z = none) ∧
            (∃ ts, getPieceAt cannonStudyPieces scr = some ts) ∧
            (∀ z ∈ mid, getPieceAt cannonStudyPieces z = none) ∧
            ∃ t, getPieceAt cannonStudyPieces ⟨4, 1⟩ = some t ∧
              t.color ≠ cannonStudyCannon.color)) :=
  cannon_screen_capture_rule cannonStudyCannon cannonStudyPieces rfl ⟨4, 1⟩

end Xiangqi
